import Mathlib

/-!
Shallow embedding of the rolling-window token budget tracker
(`src/token_tracker.py`, class `TokenBudgetTracker`).

Timestamps (Python floats from `time.time()`) become rationals, token counts
become integers, and the mutable deque becomes an explicit list whose head is
the oldest record.  The ambient clock is passed as an explicit `now` argument
to every operation; persistence I/O outcomes are passed as explicit
success/failure values.
-/

namespace TokenTracker

/-- The `TokenUsage` dataclass: a record of token usage at a specific time. -/
structure TokenUsage where
  timestamp : ℚ
  tokens : ℤ
deriving DecidableEq, Repr

/-- The state of a `TokenBudgetTracker`: the cap (`max_tokens`), the rolling
window length in seconds (`window_seconds`), and the usage history, oldest
record first (`usage_history`). -/
structure TokenBudgetTracker where
  max_tokens : ℤ
  window_seconds : ℚ
  usage_history : List TokenUsage
deriving DecidableEq, Repr

/-- The eviction test of `_clean_old_records`:
`record.timestamp < cutoff` with `cutoff = now - window_seconds`. -/
def isStale (window_seconds now : ℚ) (r : TokenUsage) : Bool :=
  decide (r.timestamp < now - window_seconds)

/-- A record counts toward the window iff its age is at most `window_seconds`;
this is the complement of `isStale`. -/
def withinWindow (window_seconds now : ℚ) (r : TokenUsage) : Bool :=
  decide (now - r.timestamp ≤ window_seconds)

/-- `_clean_old_records`: pop records from the front of the deque while the
front record is stale. -/
def clean_old_records (t : TokenBudgetTracker) (now : ℚ) : TokenBudgetTracker :=
  { t with usage_history := t.usage_history.dropWhile (isStale t.window_seconds now) }

/-- Total of the `tokens` fields of a record list. -/
def sumTokens (l : List TokenUsage) : ℤ :=
  (l.map TokenUsage.tokens).sum

/-- `get_usage_in_window`: prune stale records, then sum the `tokens` field of
the remaining records.  (The state effect of the call is `clean_old_records`.) -/
def get_usage_in_window (t : TokenBudgetTracker) (now : ℚ) : ℤ :=
  sumTokens (clean_old_records t now).usage_history

/-- The in-memory effect of `record_usage`: append a record stamped with the
current time, then prune. -/
def record_usage (t : TokenBudgetTracker) (now : ℚ) (tokens : ℤ) : TokenBudgetTracker :=
  clean_old_records { t with usage_history := t.usage_history ++ [⟨now, tokens⟩] } now

/-- `get_wait_time`: prune, read the window usage, and if the estimated next
call would exceed the cap and the history is non-empty, wait until the oldest
record leaves the window plus a 2.0 second safety buffer; otherwise 0. -/
def get_wait_time (t : TokenBudgetTracker) (now : ℚ) (estimated_next_tokens : ℤ) : ℚ :=
  if t.max_tokens <
      get_usage_in_window (clean_old_records t now) now + estimated_next_tokens then
    match (clean_old_records t now).usage_history with
    | [] => 0
    | oldest :: _ => max 0 (t.window_seconds - (now - oldest.timestamp) + 2)
  else 0

/-- `get_remaining_budget`: `max(0, max_tokens - get_usage_in_window())`. -/
def get_remaining_budget (t : TokenBudgetTracker) (now : ℚ) : ℤ :=
  max 0 (t.max_tokens - get_usage_in_window t now)

/-- The fixed base-context cost used by `estimate_iteration_tokens` (3000). -/
def base_tokens : ℤ := 3000

/-- The fixed per-tool-call cost used by `estimate_iteration_tokens` (2000). -/
def tokens_per_tool : ℤ := 2000

/-- `estimate_iteration_tokens`: a pure formula in `num_tool_calls` and the two
constants; the method reads nothing from `self`, which the embedding reflects
by ignoring the tracker argument exactly as the Python body does. -/
def estimate_iteration_tokens (_t : TokenBudgetTracker) (num_tool_calls : ℤ) : ℤ :=
  base_tokens + num_tool_calls * tokens_per_tool

/-- The successful branch of `_save_state`: the history serialized as an
ordered list of `(timestamp, tokens)` pairs. -/
def serialize_history (t : TokenBudgetTracker) : List (ℚ × ℤ) :=
  t.usage_history.map (fun r => (r.timestamp, r.tokens))

/-- `_save_state` with its I/O outcome made explicit: on success the serialized
history is written; on failure the exception is swallowed and nothing is
written.  Either way the function returns (it never raises). -/
def save_state (t : TokenBudgetTracker) (io_ok : Bool) : Option (List (ℚ × ℤ)) :=
  if io_ok then some (serialize_history t) else none

/-- `record_usage` together with its persistence step: the in-memory update
followed by the best-effort save of the updated history. -/
def record_usage_with_persist (t : TokenBudgetTracker) (now : ℚ) (tokens : ℤ)
    (io_ok : Bool) : TokenBudgetTracker × Option (List (ℚ × ℤ)) :=
  let t1 := record_usage t now tokens
  (t1, save_state t1 io_ok)

/-- `_load_state` with the file read/parse outcome made explicit: on a
successful parse the history is replaced by the deserialized records and
immediately pruned; on any failure the history is reset to empty and the
exception is swallowed. -/
def load_state (t : TokenBudgetTracker) (raw : Except String (List (ℚ × ℤ)))
    (now : ℚ) : TokenBudgetTracker :=
  match raw with
  | Except.ok l =>
      clean_old_records { t with usage_history := l.map (fun p => ⟨p.1, p.2⟩) } now
  | Except.error _ => { t with usage_history := [] }

/-- Constructing a fresh tracker (same cap and window, empty history) from a
persisted snapshot of `t`, as `__init__` does when `persist_path` exists. -/
def reload_tracker (t : TokenBudgetTracker) (now : ℚ) : TokenBudgetTracker :=
  load_state ⟨t.max_tokens, t.window_seconds, []⟩ (Except.ok (serialize_history t)) now

/-- An externally visible tracker operation: recording usage at a time, or a
read-style query (whose only state effect is pruning) at a time. -/
inductive TrackerOp where
  | record : ℚ → ℤ → TrackerOp
  | query : ℚ → TrackerOp
deriving DecidableEq, Repr

/-- The clock time at which an operation happens. -/
def opTime : TrackerOp → ℚ
  | TrackerOp.record u _ => u
  | TrackerOp.query u => u

/-- State effect of one operation. -/
def applyOp (t : TokenBudgetTracker) : TrackerOp → TokenBudgetTracker
  | TrackerOp.record u k => record_usage t u k
  | TrackerOp.query u => clean_old_records t u

/-- Run a sequence of operations left to right. -/
def runOps (t : TokenBudgetTracker) (ops : List TrackerOp) : TokenBudgetTracker :=
  ops.foldl applyOp t

/-- The records appended by a sequence of operations. -/
def recordsOf : List TrackerOp → List TokenUsage
  | [] => []
  | TrackerOp.record u k :: rest => ⟨u, k⟩ :: recordsOf rest
  | TrackerOp.query _ :: rest => recordsOf rest

/-- The timestamps of a record list, in order. -/
def timesOf (l : List TokenUsage) : List ℚ :=
  l.map TokenUsage.timestamp

/-- A history is chronological: timestamps are pairwise non-decreasing. -/
abbrev sortedByTime (l : List TokenUsage) : Prop :=
  (timesOf l).Pairwise (· ≤ ·)

end TokenTracker

namespace TokenTracker

lemma clean_window (t : TokenBudgetTracker) (now : ℚ) :
    (clean_old_records t now).window_seconds = t.window_seconds := rfl

lemma clean_max (t : TokenBudgetTracker) (now : ℚ) :
    (clean_old_records t now).max_tokens = t.max_tokens := rfl

lemma record_window (t : TokenBudgetTracker) (now : ℚ) (k : ℤ) :
    (record_usage t now k).window_seconds = t.window_seconds := rfl

/-- Pruning twice at the same instant is the same as pruning once. -/
lemma dropWhile_dropWhile {α : Type} (p : α → Bool) (l : List α) :
    (l.dropWhile p).dropWhile p = l.dropWhile p := by
  induction l with
  | nil => rfl
  | cons a l ih =>
    by_cases h : p a
    · rw [List.dropWhile_cons_of_pos h, ih]
    · rw [List.dropWhile_cons_of_neg h, List.dropWhile_cons_of_neg h]

lemma clean_clean (t : TokenBudgetTracker) (now : ℚ) :
    clean_old_records (clean_old_records t now) now = clean_old_records t now := by
  unfold clean_old_records
  simp only [dropWhile_dropWhile]

lemma usage_clean (t : TokenBudgetTracker) (now : ℚ) :
    get_usage_in_window (clean_old_records t now) now = get_usage_in_window t now := by
  unfold get_usage_in_window
  rw [clean_clean]

lemma isStale_false_iff (w now : ℚ) (r : TokenUsage) :
    isStale w now r = false ↔ now - w ≤ r.timestamp := by
  simp [isStale, not_lt]

lemma withinWindow_true_iff (w now : ℚ) (r : TokenUsage) :
    withinWindow w now r = true ↔ now - w ≤ r.timestamp := by
  simp only [withinWindow, decide_eq_true_eq]
  constructor <;> intro h <;> linarith

/-- On a chronologically sorted history, popping the stale prefix removes
exactly the stale records: `dropWhile` agrees with `filter`. -/
lemma dropWhile_isStale_eq_filter (w now : ℚ) :
    ∀ l : List TokenUsage, sortedByTime l →
      l.dropWhile (isStale w now) = l.filter (withinWindow w now) := by
  intro l hl
  induction l with
  | nil => rfl
  | cons r l ih =>
    simp only [sortedByTime, timesOf, List.map_cons, List.pairwise_cons] at hl
    by_cases hr : isStale w now r = true
    · have hrw : withinWindow w now r = false := by
        simp only [isStale, decide_eq_true_eq] at hr
        simp only [withinWindow, decide_eq_false_iff_not, not_le]
        linarith
      rw [List.dropWhile_cons_of_pos hr, List.filter_cons_of_neg (by simp [hrw]),
        ih hl.2]
    · have hr' : now - w ≤ r.timestamp := by
        rw [← isStale_false_iff w now r]
        exact Bool.not_eq_true _ ▸ (Bool.eq_false_iff.mpr hr)
      have hrw : withinWindow w now r = true := (withinWindow_true_iff w now r).mpr hr'
      rw [List.dropWhile_cons_of_neg hr, List.filter_cons_of_pos hrw,
        List.filter_eq_self.mpr ?_]
      intro b hb
      have hb' : r.timestamp ≤ b.timestamp :=
        hl.1 b.timestamp (List.mem_map_of_mem TokenUsage.timestamp hb)
      rw [withinWindow_true_iff]
      linarith

/-- Filtering for a later window subsumes filtering for an earlier one. -/
lemma filter_withinWindow_filter (w u now : ℚ) (hu : u ≤ now) (l : List TokenUsage) :
    (l.filter (withinWindow w u)).filter (withinWindow w now)
      = l.filter (withinWindow w now) := by
  rw [List.filter_filter]
  refine List.filter_congr ?_
  intro r _
  by_cases h : withinWindow w now r = true
  · have h' : now - w ≤ r.timestamp := (withinWindow_true_iff w now r).mp h
    have h2 : withinWindow w u r = true := by
      rw [withinWindow_true_iff]
      linarith
    rw [h, h2]
    rfl
  · rw [Bool.eq_false_iff.mpr h]
    simp

lemma sumTokens_append (a b : List TokenUsage) :
    sumTokens (a ++ b) = sumTokens a + sumTokens b := by
  unfold sumTokens
  rw [List.map_append, List.sum_append]

/-- Appending a record stamped no earlier than everything present keeps the
history chronological. -/
lemma sorted_append_record (l : List TokenUsage) (u : ℚ)
    (hs : sortedByTime l) (hle : ∀ r ∈ l, r.timestamp ≤ u) (k : ℤ) :
    sortedByTime (l ++ [(⟨u, k⟩ : TokenUsage)]) := by
  simp only [sortedByTime, timesOf, List.map_append, List.map_cons, List.map_nil]
  rw [List.pairwise_append]
  refine ⟨hs, List.pairwise_singleton _ _, ?_⟩
  intro a ha b hb
  simp only [List.mem_singleton] at hb
  subst hb
  obtain ⟨r, hr, rfl⟩ := List.mem_map.mp ha
  exact hle r hr

lemma clean_history_sorted (t : TokenBudgetTracker) (now : ℚ)
    (hs : sortedByTime t.usage_history) :
    (clean_old_records t now).usage_history
      = t.usage_history.filter (withinWindow t.window_seconds now) :=
  dropWhile_isStale_eq_filter _ _ _ hs

lemma record_history_sorted (t : TokenBudgetTracker) (u : ℚ) (k : ℤ)
    (hs : sortedByTime t.usage_history)
    (hle : ∀ r ∈ t.usage_history, r.timestamp ≤ u) :
    (record_usage t u k).usage_history
      = (t.usage_history ++ [(⟨u, k⟩ : TokenUsage)]).filter
          (withinWindow t.window_seconds u) :=
  dropWhile_isStale_eq_filter _ _ _ (sorted_append_record _ _ hs hle k)

/-- Core run lemma: starting from any chronological state and running
record/query operations at non-decreasing times, the usage seen at a later
time `now` is exactly the sum over all records (initial and appended) whose
timestamp is still within the window at `now`. -/
lemma runOps_usage_eq (ops : List TrackerOp) :
    ∀ t : TokenBudgetTracker,
      (timesOf t.usage_history ++ ops.map opTime).Pairwise (· ≤ ·) →
      ∀ now : ℚ, (∀ op ∈ ops, opTime op ≤ now) →
        get_usage_in_window (runOps t ops) now
          = sumTokens ((t.usage_history ++ recordsOf ops).filter
              (withinWindow t.window_seconds now)) := by
  induction ops with
  | nil =>
    intro t h now _
    have hs : sortedByTime t.usage_history := by simpa using h
    simp only [runOps, List.foldl_nil, recordsOf, List.append_nil]
    unfold get_usage_in_window
    rw [clean_history_sorted t now hs]
  | cons op rest ih =>
    intro t h now hle
    have hrest : ∀ o ∈ rest, opTime o ≤ now := fun o ho =>
      hle o (List.mem_cons_of_mem op ho)
    have hop : opTime op ≤ now := hle op (List.mem_cons_self op rest)
    cases op with
    | record u k =>
      simp only [opTime] at hop
      simp only [List.map_cons, opTime] at h
      have hs : sortedByTime t.usage_history := (List.pairwise_append.mp h).1
      have hle_hist : ∀ r ∈ t.usage_history, r.timestamp ≤ u := by
        intro r hr
        exact (List.pairwise_append.mp h).2.2 r.timestamp
          (List.mem_map_of_mem TokenUsage.timestamp hr) u (List.mem_cons_self u _)
      have hist' := record_history_sorted t u k hs hle_hist
      have h1 : List.Sublist (timesOf (record_usage t u k).usage_history)
          (timesOf t.usage_history ++ [u]) := by
        rw [hist']
        have h2 : List.Sublist
            (timesOf ((t.usage_history ++ [(⟨u, k⟩ : TokenUsage)]).filter
              (withinWindow t.window_seconds u)))
            (timesOf (t.usage_history ++ [(⟨u, k⟩ : TokenUsage)])) :=
          List.Sublist.map _ (List.filter_sublist _)
        simpa [timesOf] using h2
      have hsub : List.Sublist
          (timesOf (record_usage t u k).usage_history ++ rest.map opTime)
          (timesOf t.usage_history ++ u :: rest.map opTime) := by
        have h3 := h1.append_right (rest.map opTime)
        rwa [List.append_assoc, List.singleton_append] at h3
      have hIH := ih (record_usage t u k) (List.Pairwise.sublist hsub h) now hrest
      simp only [runOps, List.foldl_cons, applyOp] at hIH ⊢
      rw [hIH, record_window, hist', List.filter_append,
        filter_withinWindow_filter t.window_seconds u now hop,
        ← List.filter_append, List.append_assoc, List.singleton_append]
      rfl
    | query u =>
      simp only [opTime] at hop
      simp only [List.map_cons, opTime] at h
      have hs : sortedByTime t.usage_history := (List.pairwise_append.mp h).1
      have hist' := clean_history_sorted t u hs
      have h1 : List.Sublist (timesOf (clean_old_records t u).usage_history)
          (timesOf t.usage_history) :=
        List.Sublist.map _ (List.dropWhile_sublist _)
      have hsub : List.Sublist
          (timesOf (clean_old_records t u).usage_history ++ rest.map opTime)
          (timesOf t.usage_history ++ u :: rest.map opTime) :=
        List.Sublist.trans (h1.append_right (rest.map opTime))
          ((List.sublist_cons_self u (rest.map opTime)).append_left _)
      have hIH := ih (clean_old_records t u) (List.Pairwise.sublist hsub h) now hrest
      simp only [runOps, List.foldl_cons, applyOp] at hIH ⊢
      rw [hIH, clean_window, hist', List.filter_append,
        filter_withinWindow_filter t.window_seconds u now hop,
        ← List.filter_append]
      rfl

lemma get_wait_time_of_le (t : TokenBudgetTracker) (now : ℚ) (x : ℤ)
    (h : get_usage_in_window t now + x ≤ t.max_tokens) :
    get_wait_time t now x = 0 := by
  unfold get_wait_time
  rw [usage_clean, if_neg (not_lt.mpr h)]

lemma get_wait_time_of_over (t : TokenBudgetTracker) (now : ℚ) (x : ℤ)
    (r : TokenUsage) (rest : List TokenUsage)
    (hh : (clean_old_records t now).usage_history = r :: rest)
    (h : t.max_tokens < get_usage_in_window t now + x) :
    get_wait_time t now x = max 0 (t.window_seconds - (now - r.timestamp) + 2) := by
  unfold get_wait_time
  rw [usage_clean, if_pos h, hh]

lemma get_wait_time_of_empty (t : TokenBudgetTracker) (now : ℚ) (x : ℤ)
    (hh : (clean_old_records t now).usage_history = []) :
    get_wait_time t now x = 0 := by
  unfold get_wait_time
  rw [hh]
  split <;> rfl

/-- The head of a `dropWhile` result never satisfies the dropped predicate. -/
lemma dropWhile_eq_cons_head_false {α : Type} (p : α → Bool) :
    ∀ (l : List α) (r : α) (rs : List α), l.dropWhile p = r :: rs → p r = false := by
  intro l
  induction l with
  | nil => intro r rs h; exact List.noConfusion h
  | cons a l ih =>
    intro r rs h
    by_cases ha : p a
    · rw [List.dropWhile_cons_of_pos ha] at h
      exact ih r rs h
    · rw [List.dropWhile_cons_of_neg ha] at h
      injection h with h1 _
      subst h1
      exact Bool.eq_false_iff.mpr ha

/-- The oldest surviving record after pruning is still inside the window. -/
lemma clean_head_in_window (t : TokenBudgetTracker) (now : ℚ) (r : TokenUsage)
    (rest : List TokenUsage)
    (hh : (clean_old_records t now).usage_history = r :: rest) :
    now - t.window_seconds ≤ r.timestamp :=
  (isStale_false_iff _ _ _).mp
    (dropWhile_eq_cons_head_false (isStale t.window_seconds now)
      t.usage_history r rest hh)

/-- Claim C2: `get_wait_time` returns 0 whenever the current usage plus the
estimate fits under the cap; when it does not fit and the pruned history is
non-empty it returns `max 0 (window_seconds - (now - t0) + buffer)` where `t0`
is the oldest surviving record's timestamp and the buffer is the fixed
constant 2.0 seconds; and when the pruned history is empty it returns 0 even
if the estimate alone exceeds the cap. -/
theorem get_wait_time_spec (t : TokenBudgetTracker) (now : ℚ) (x : ℤ) :
    (get_usage_in_window t now + x ≤ t.max_tokens → get_wait_time t now x = 0) ∧
    (t.max_tokens < get_usage_in_window t now + x →
      ∀ r rest, (clean_old_records t now).usage_history = r :: rest →
        get_wait_time t now x
          = max 0 (t.window_seconds - (now - r.timestamp) + 2)) ∧
    ((clean_old_records t now).usage_history = [] → get_wait_time t now x = 0) :=
  ⟨get_wait_time_of_le t now x,
   fun h r rest hh => get_wait_time_of_over t now x r rest hh h,
   get_wait_time_of_empty t now x⟩

/-- Witness for C2: with cap 900 and a single 800-token record at time 0,
an estimate of 100 at time 10 gives no wait, an estimate of 200 gives a wait
of `60 - 10 + 2 = 52`, and an empty tracker never waits even for an estimate
above the cap. -/
theorem get_wait_time_spec_witness :
    get_wait_time ⟨900, 60, [⟨0, 800⟩]⟩ 10 100 = 0 ∧
    get_wait_time ⟨900, 60, [⟨0, 800⟩]⟩ 10 200 = 52 ∧
    get_wait_time ⟨900, 60, []⟩ 10 1000 = 0 := by
  refine ⟨?_, ?_, ?_⟩
  · exact (get_wait_time_spec ⟨900, 60, [⟨0, 800⟩]⟩ 10 100).1 (by
      norm_num [get_usage_in_window, clean_old_records, sumTokens, isStale])
  · have h := (get_wait_time_spec ⟨900, 60, [⟨0, 800⟩]⟩ 10 200).2.1 (by
      norm_num [get_usage_in_window, clean_old_records, sumTokens, isStale])
      ⟨0, 800⟩ [] (by norm_num [clean_old_records, isStale])
    rw [h]
    norm_num
  · exact (get_wait_time_spec ⟨900, 60, []⟩ 10 1000).2.2 rfl

/-- Claim C4: `get_remaining_budget` is `max 0 (cap - usage)`, never negative,
and equals `cap - usage` whenever that difference is non-negative. -/
theorem get_remaining_budget_spec (t : TokenBudgetTracker) (now : ℚ) :
    get_remaining_budget t now
      = max 0 (t.max_tokens - get_usage_in_window t now) ∧
    0 ≤ get_remaining_budget t now ∧
    (get_usage_in_window t now ≤ t.max_tokens →
      get_remaining_budget t now = t.max_tokens - get_usage_in_window t now) := by
  refine ⟨rfl, le_max_left _ _, fun h => ?_⟩
  unfold get_remaining_budget
  exact max_eq_right (sub_nonneg.mpr h)

/-- Witness for C4: cap 900 with 400 tokens used leaves a budget of 500. -/
theorem get_remaining_budget_spec_witness :
    get_remaining_budget ⟨900, 60, [⟨0, 400⟩]⟩ 10 = 500 := by
  have h := (get_remaining_budget_spec ⟨900, 60, [⟨0, 400⟩]⟩ 10).2.2 (by
    norm_num [get_usage_in_window, clean_old_records, sumTokens, isStale])
  rw [h]
  norm_num [get_usage_in_window, clean_old_records, sumTokens, isStale]

/-- Claim C7: a failing load leaves an empty history with the configuration
fields intact and never raises, and a failing save is swallowed: the tracker
state produced by `record_usage` is independent of the save outcome. -/
theorem persistence_failures_swallowed (t : TokenBudgetTracker) (now : ℚ)
    (k : ℤ) (msg : String) (io_ok : Bool) :
    (load_state t (Except.error msg) now).usage_history = [] ∧
    (load_state t (Except.error msg) now).max_tokens = t.max_tokens ∧
    (load_state t (Except.error msg) now).window_seconds = t.window_seconds ∧
    (record_usage_with_persist t now k io_ok).1 = record_usage t now k :=
  ⟨rfl, rfl, rfl, rfl⟩

/-- Claim C8: the estimator returns exactly
`base_tokens + num_tool_calls * tokens_per_tool` (3000 and 2000), and is a
pure function of its argument and the two constants: the tracker state plays
no role in its value. -/
theorem estimate_iteration_tokens_pure (t t2 : TokenBudgetTracker) (n : ℤ) :
    estimate_iteration_tokens t n = base_tokens + n * tokens_per_tool ∧
    estimate_iteration_tokens t n = 3000 + n * 2000 ∧
    estimate_iteration_tokens t n = estimate_iteration_tokens t2 n :=
  ⟨rfl, rfl, rfl⟩

lemma sortedByTime_sublist {l1 l2 : List TokenUsage}
    (h : List.Sublist l1 l2) (hs : sortedByTime l2) : sortedByTime l1 :=
  List.Pairwise.sublist (List.Sublist.map _ h) hs

/-- Claim C1: for any starting state and any sequence of records and queries
performed at non-decreasing times, a usage query at a later time `now` prunes
and then returns exactly the sum of `tokens` over all records whose timestamp
is within `window_seconds` of `now`, however queries interleave with time
advancement. -/
theorem usage_in_window_correct (t : TokenBudgetTracker) (ops : List TrackerOp)
    (now : ℚ)
    (hmono : (timesOf t.usage_history ++ ops.map opTime).Pairwise (· ≤ ·))
    (hnow : ∀ op ∈ ops, opTime op ≤ now) :
    get_usage_in_window (runOps t ops) now
      = sumTokens ((t.usage_history ++ recordsOf ops).filter
          (withinWindow t.window_seconds now)) :=
  runOps_usage_eq ops t hmono now hnow

/-- Witness for C1: records of 400 tokens at t=0 and t=10 with an interleaved
query at t=5; at t=10 both records are inside the 60 second window: usage 800. -/
theorem usage_in_window_correct_witness :
    get_usage_in_window (runOps ⟨900, 60, []⟩
      [TrackerOp.record 0 400, TrackerOp.query 5, TrackerOp.record 10 400]) 10
      = 800 := by
  have h := usage_in_window_correct ⟨900, 60, []⟩
    [TrackerOp.record 0 400, TrackerOp.query 5, TrackerOp.record 10 400] 10
    (by norm_num [timesOf, opTime, List.pairwise_cons])
    (by
      intro op hop
      simp only [List.mem_cons, List.not_mem_nil, or_false] at hop
      rcases hop with rfl | rfl | rfl <;> norm_num [opTime])
  rw [h]
  norm_num [recordsOf, sumTokens, withinWindow]

/-- Claim C5: a record appended at time `u` with `k` tokens contributes `k` to
every query at a time `now ≤ u + window_seconds` (the boundary included) and
nothing to any later query; pruning removes exactly a stale prefix from the
front of the history. -/
theorem pruning_correct (t : TokenBudgetTracker) (u now : ℚ) (k : ℤ)
    (hs : sortedByTime t.usage_history)
    (hle : ∀ r ∈ t.usage_history, r.timestamp ≤ u)
    (hnow : u ≤ now) :
    (get_usage_in_window (record_usage t u k) now
      = get_usage_in_window t now
        + (if now ≤ u + t.window_seconds then k else 0)) ∧
    (t.usage_history
      = t.usage_history.takeWhile (isStale t.window_seconds now)
        ++ (clean_old_records t now).usage_history) ∧
    (∀ r ∈ t.usage_history.takeWhile (isStale t.window_seconds now),
      r.timestamp < now - t.window_seconds) := by
  refine ⟨?_, (List.takeWhile_append_dropWhile _ _).symm, ?_⟩
  · have hist1 := record_history_sorted t u k hs hle
    have hs1 : sortedByTime (record_usage t u k).usage_history := by
      rw [hist1]
      exact sortedByTime_sublist (List.filter_sublist _)
        (sorted_append_record t.usage_history u hs hle k)
    have e1 : get_usage_in_window (record_usage t u k) now
        = sumTokens (((t.usage_history ++ [(⟨u, k⟩ : TokenUsage)]).filter
            (withinWindow t.window_seconds u)).filter
            (withinWindow t.window_seconds now)) := by
      unfold get_usage_in_window
      rw [clean_history_sorted _ now hs1, record_window, hist1]
    have e2 : get_usage_in_window t now
        = sumTokens (t.usage_history.filter (withinWindow t.window_seconds now)) := by
      unfold get_usage_in_window
      rw [clean_history_sorted t now hs]
    rw [e1, e2, filter_withinWindow_filter _ _ _ hnow, List.filter_append,
      sumTokens_append]
    congr 1
    by_cases hb : now ≤ u + t.window_seconds
    · have hw : withinWindow t.window_seconds now (⟨u, k⟩ : TokenUsage) = true := by
        rw [withinWindow_true_iff]
        show now - t.window_seconds ≤ u
        linarith
      rw [if_pos hb, List.filter_cons_of_pos hw]
      simp [sumTokens]
    · have hw : withinWindow t.window_seconds now (⟨u, k⟩ : TokenUsage) = false := by
        simp only [withinWindow, decide_eq_false_iff_not, not_le]
        show t.window_seconds < now - u
        linarith
      rw [if_neg hb, List.filter_cons_of_neg (by simp [hw])]
      simp [sumTokens]
  · intro r hr
    have hp := List.mem_takeWhile_imp hr
    simp only [isStale, decide_eq_true_eq] at hp
    exact hp

/-- Witness for C5: appending 400 tokens at t=10 onto a 400-token record from
t=0 and querying at t=10 adds the full contribution: usage 800. -/
theorem pruning_correct_witness :
    get_usage_in_window (record_usage ⟨900, 60, [⟨0, 400⟩]⟩ 10 400) 10 = 800 := by
  have h := (pruning_correct ⟨900, 60, [⟨0, 400⟩]⟩ 10 10 400
    (by norm_num [sortedByTime, timesOf, List.pairwise_cons])
    (by
      intro r hr
      simp only [List.mem_cons, List.not_mem_nil, or_false] at hr
      subst hr
      norm_num)
    (le_refl 10)).1
  rw [h]
  norm_num [get_usage_in_window, clean_old_records, sumTokens, isStale]

/-- Claim C10: under a monotone clock, pruning and recording both preserve the
chronological (non-decreasing timestamp) order of the history; pruning removes
only a prefix at the old end, `record_usage` only appends at the new end, and
every surviving record is one of the original records or the appended one —
no record is ever mutated. -/
theorem fifo_order_invariant (t : TokenBudgetTracker) (now : ℚ) (k : ℤ)
    (hs : sortedByTime t.usage_history)
    (hmono : ∀ r ∈ t.usage_history, r.timestamp ≤ now) :
    sortedByTime (clean_old_records t now).usage_history ∧
    sortedByTime (record_usage t now k).usage_history ∧
    (∃ removed, t.usage_history
      = removed ++ (clean_old_records t now).usage_history) ∧
    (∃ removed, t.usage_history ++ [(⟨now, k⟩ : TokenUsage)]
      = removed ++ (record_usage t now k).usage_history) ∧
    (∀ r ∈ (record_usage t now k).usage_history,
      r ∈ t.usage_history ∨ r = (⟨now, k⟩ : TokenUsage)) := by
  refine ⟨?_, ?_, ?_, ?_, ?_⟩
  · exact sortedByTime_sublist (List.dropWhile_sublist _) hs
  · exact sortedByTime_sublist (List.dropWhile_sublist _)
      (sorted_append_record t.usage_history now hs hmono k)
  · exact ⟨t.usage_history.takeWhile (isStale t.window_seconds now),
      (List.takeWhile_append_dropWhile _ _).symm⟩
  · exact ⟨(t.usage_history ++ [(⟨now, k⟩ : TokenUsage)]).takeWhile
        (isStale t.window_seconds now),
      (List.takeWhile_append_dropWhile _ _).symm⟩
  · intro r hr
    have hr2 : r ∈ t.usage_history ++ [(⟨now, k⟩ : TokenUsage)] :=
      (List.dropWhile_sublist _).subset hr
    rcases List.mem_append.mp hr2 with h | h
    · exact Or.inl h
    · exact Or.inr (List.mem_singleton.mp h)

/-- Witness for C10: after pruning at t=10 and recording 7 tokens at t=10 the
history of a one-record tracker stays chronological. -/
theorem fifo_order_invariant_witness :
    sortedByTime (clean_old_records ⟨900, 60, [⟨0, 400⟩]⟩ 10).usage_history ∧
    sortedByTime (record_usage ⟨900, 60, [⟨0, 400⟩]⟩ 10 7).usage_history := by
  have h := fifo_order_invariant ⟨900, 60, [⟨0, 400⟩]⟩ 10 7
    (by norm_num [sortedByTime, timesOf, List.pairwise_cons])
    (by
      intro r hr
      simp only [List.mem_cons, List.not_mem_nil, or_false] at hr
      subst hr
      norm_num)
  exact ⟨h.1, h.2.1⟩

/-- A fresh element appended at the back survives `dropWhile` when it does not
satisfy the dropped predicate. -/
lemma mem_dropWhile_append_singleton {α : Type} (p : α → Bool) (a : α)
    (hpa : p a = false) : ∀ l : List α, a ∈ (l ++ [a]).dropWhile p := by
  intro l
  induction l with
  | nil =>
    rw [List.nil_append,
      List.dropWhile_cons_of_neg (by simp [hpa])]
    exact List.mem_singleton.mpr rfl
  | cons b l ih =>
    by_cases hb : p b
    · rw [List.cons_append, List.dropWhile_cons_of_pos hb]
      exact ih
    · rw [List.cons_append, List.dropWhile_cons_of_neg hb]
      exact List.mem_cons_of_mem b
        (List.mem_append_right l (List.mem_singleton.mpr rfl))

/-- Claim C9: `record_usage` validates nothing: any integer token count,
negative included, is appended without failure (with a non-negative window the
fresh record survives its own pruning), so the window sum can be negative,
while `get_remaining_budget` stays non-negative thanks to its clamp. -/
theorem record_usage_no_validation (t : TokenBudgetTracker) (now : ℚ) (k : ℤ)
    (hw : 0 ≤ t.window_seconds) :
    (⟨now, k⟩ : TokenUsage) ∈ (record_usage t now k).usage_history ∧
    0 ≤ get_remaining_budget t now ∧
    get_usage_in_window ⟨900, 60, [⟨0, -5⟩]⟩ 0 = -5 := by
  refine ⟨?_, le_max_left _ _, ?_⟩
  · have hpa : isStale t.window_seconds now (⟨now, k⟩ : TokenUsage) = false := by
      rw [isStale_false_iff]
      show now - t.window_seconds ≤ now
      linarith
    exact mem_dropWhile_append_singleton _ _ hpa t.usage_history
  · norm_num [get_usage_in_window, clean_old_records, sumTokens, isStale]

/-- Witness for C9: recording -7 tokens at t=5 appends the record, and the
remaining budget of a tracker holding a negative record is non-negative. -/
theorem record_usage_no_validation_witness :
    (⟨5, -7⟩ : TokenUsage) ∈ (record_usage ⟨900, 60, [⟨0, -5⟩]⟩ 5 (-7)).usage_history ∧
    0 ≤ get_remaining_budget ⟨900, 60, [⟨0, -5⟩]⟩ 5 := by
  have h := record_usage_no_validation ⟨900, 60, [⟨0, -5⟩]⟩ 5 (-7) (by norm_num)
  exact ⟨h.1, h.2.1⟩

/-- Claim C6: reloading a saved snapshot into a fresh tracker with the same
configuration reproduces, after the mandatory load-time pruning, exactly the
records that survive pruning the original at load time — records already older
than the window are dropped immediately — and hence an equal window usage. -/
theorem persistence_round_trip (t : TokenBudgetTracker) (now : ℚ) :
    (reload_tracker t now).usage_history
      = (clean_old_records t now).usage_history ∧
    get_usage_in_window (reload_tracker t now) now = get_usage_in_window t now := by
  have hmap : (serialize_history t).map
      (fun p => (⟨p.1, p.2⟩ : TokenUsage)) = t.usage_history := by
    unfold serialize_history
    rw [List.map_map]
    exact List.map_id t.usage_history
  have h1 : reload_tracker t now = clean_old_records t now := by
    show clean_old_records ⟨t.max_tokens, t.window_seconds,
        (serialize_history t).map (fun p => (⟨p.1, p.2⟩ : TokenUsage))⟩ now
      = clean_old_records t now
    rw [hmap]
  exact ⟨by rw [h1], by rw [h1, usage_clean]⟩

/-- Counterexample to claim C3 as stated: cap 900, window 60, a 1-token record
at t=0 and a 900-token record at t=5.  At t=10 with an estimate of 100 the
usage 901 + 100 exceeds the cap on a non-empty history (pruning removes
nothing), the first wait is 52, but after advancing time by exactly 52 the
retry at t=62 returns 5, not 0: only the oldest record aged out and the
remaining usage still overflows the cap. -/
theorem get_wait_time_retry_counterexample :
    (900 : ℤ) < get_usage_in_window ⟨900, 60, [⟨0, 1⟩, ⟨5, 900⟩]⟩ 10 + 100 ∧
    (clean_old_records ⟨900, 60, [⟨0, 1⟩, ⟨5, 900⟩]⟩ 10).usage_history
      = [⟨0, 1⟩, ⟨5, 900⟩] ∧
    get_wait_time ⟨900, 60, [⟨0, 1⟩, ⟨5, 900⟩]⟩ 10 100 = 52 ∧
    get_wait_time ⟨900, 60, [⟨0, 1⟩, ⟨5, 900⟩]⟩ (10 + 52) 100 = 5 := by
  refine ⟨?_, ?_, ?_, ?_⟩ <;>
    norm_num [get_wait_time, get_usage_in_window, clean_old_records, sumTokens,
      isStale]

/-- Claim C3 (amended): with a non-empty pruned history and projected usage
over the cap, `get_wait_time` is strictly positive; and after advancing time
by exactly the returned duration the previously oldest record has aged out of
the window, so when that record was the only surviving one the retry returns
0.  (With several surviving records one sleep need not suffice — the
conservative wait only accounts for the oldest record ageing out — and the
caller's loop re-evaluates.) -/
theorem get_wait_time_progress (t : TokenBudgetTracker) (now : ℚ) (x : ℤ)
    (r : TokenUsage) (rest : List TokenUsage)
    (hh : (clean_old_records t now).usage_history = r :: rest)
    (hover : t.max_tokens < get_usage_in_window t now + x) :
    0 < get_wait_time t now x ∧
    (rest = [] →
      get_wait_time (clean_old_records t now) (now + get_wait_time t now x) x
        = 0) := by
  have hr : now - t.window_seconds ≤ r.timestamp := clean_head_in_window t now r rest hh
  have hwt := get_wait_time_of_over t now x r rest hh hover
  have hmax : max 0 (t.window_seconds - (now - r.timestamp) + 2)
      = t.window_seconds - (now - r.timestamp) + 2 :=
    max_eq_right (by linarith)
  constructor
  · rw [hwt, hmax]
    linarith
  · intro hrest
    subst hrest
    have hstale : isStale t.window_seconds (now + get_wait_time t now x) r = true := by
      rw [hwt, hmax]
      simp only [isStale, decide_eq_true_eq]
      linarith
    apply get_wait_time_of_empty
    show ((clean_old_records t now).usage_history).dropWhile
        (isStale (clean_old_records t now).window_seconds
          (now + get_wait_time t now x)) = []
    rw [hh, clean_window t now, List.dropWhile_cons_of_pos hstale]
    exact List.dropWhile_nil

/-- Witness for C3 (amended): one 800-token record at t=0, cap 900, estimate
200 at t=10: the wait is positive, and the retry after sleeping exactly that
long returns 0. -/
theorem get_wait_time_progress_witness :
    0 < get_wait_time ⟨900, 60, [⟨0, 800⟩]⟩ 10 200 ∧
    get_wait_time (clean_old_records ⟨900, 60, [⟨0, 800⟩]⟩ 10)
      (10 + get_wait_time ⟨900, 60, [⟨0, 800⟩]⟩ 10 200) 200 = 0 := by
  have h := get_wait_time_progress ⟨900, 60, [⟨0, 800⟩]⟩ 10 200 ⟨0, 800⟩ []
    (by norm_num [clean_old_records, isStale])
    (by norm_num [get_usage_in_window, clean_old_records, sumTokens, isStale])
  exact ⟨h.1, h.2 rfl⟩
